import Mathlib

/-!
Verification of the recurrence-expansion core of the Reminders-by-Location app
(`src/scheduler.ts` and the notification adapter in the same module).

Modelling conventions (shallow embedding):
* A JavaScript `Date` is an integer number of minutes since a fixed local
  epoch (`Int`).  All computations of the source that matter operate at
  minute granularity: `minutesSinceMidnight` reads hours/minutes only,
  `alignToInterval` floors the millisecond difference to minutes, and the
  fallback walk truncates seconds with `setSeconds(0, 0)` (the identity at
  this resolution).  There is no daylight-saving shift in the model, so
  `setHours(0,0,0,0)` is "subtract the minute of day" and `setDate(+1)` is
  "add 1440 minutes".
* Minute 0 of the model is a local midnight falling on a Thursday
  (`getDay = 4`, Sunday-first), as at the Unix epoch.
* Per the spec all minute values and intervals are integers, so `number`
  fields holding minutes are `Int`; the non-finite-input coercions of
  `clamp`/`normalizeMinutes` (which only concern `NaN`/`Infinity`) are
  outside the model.  The result-count cap `maxCount` is a `Nat`.
* `while` loops become fuel-indexed structural recursion.  The fuel passed
  by the wrappers strictly exceeds the possible number of iterations (each
  iteration advances the cursor by at least one minute, and the loops stop
  once the cursor passes the horizon), so the fuel case is never the one
  that terminates the recursion on the arguments actually supplied.
-/

namespace Scheduler

def MIN_INTERVAL : Int := 5
def MAX_INTERVAL : Int := 180
def DEFAULT_DAYS : List Bool := [true, true, true, true, true, true, true]

/-- `clamp` from `scheduler.ts`: `Math.min(max, Math.max(min, value))`. -/
def clamp (value lo hi : Int) : Int := min hi (max lo value)

/-- `normalizeMinutes`: `Math.floor(value) % 1440`, made non-negative.
On integers this is exactly the Euclidean remainder. -/
def normalizeMinutes (value : Int) : Int := value % 1440

/-- `startOfDay`: `setHours(0,0,0,0)`, i.e. local midnight of the date's day. -/
def startOfDay (t : Int) : Int := t - t % 1440

/-- `minutesSinceMidnight`: `getHours() * 60 + getMinutes()`. -/
def minutesSinceMidnight (t : Int) : Int := t % 1440

/-- `dateAtMinutes`: midnight of the date's day plus `m` minutes. -/
def dateAtMinutes (t m : Int) : Int := startOfDay t + m

/-- `addMinutes`. -/
def addMinutes (t m : Int) : Int := t + m

/-- `addDays`: `setDate(getDate() + days)`. -/
def addDays (t d : Int) : Int := t + 1440 * d

/-- JS `Date.prototype.getDay` (0 = Sunday): weekday of the date's local day. -/
def getDay (t : Int) : Int := ((t - t % 1440) / 1440 + 4) % 7

/-- `normalizeDaysOfWeek`: anything that is not a 7-element array becomes the
all-true default. -/
def normalizeDaysOfWeek : Option (List Bool) → List Bool
  | some value => if value.length = 7 then value else DEFAULT_DAYS
  | none => DEFAULT_DAYS

/-- `isDayActive`: Monday-first mask lookup, `day == 0 ? 6 : day - 1`
(out-of-range reads yield `undefined`, i.e. `false`). -/
def isDayActive (t : Int) (daysOfWeek : List Bool) : Bool :=
  let day := getDay t
  let index := if day = 0 then 6 else day - 1
  daysOfWeek.getD index.toNat false

/-- `isWithinWindow`. -/
def isWithinWindow (t startM endM : Int) (spansMidnight : Bool) : Bool :=
  let m := minutesSinceMidnight t
  if spansMidnight then startM ≤ m || m < endM
  else startM ≤ m && m < endM

/-- `nextWindowStart`. -/
def nextWindowStart (t startM endM : Int) (spansMidnight : Bool) : Int :=
  let m := minutesSinceMidnight t
  let todayStart := dateAtMinutes t startM
  if spansMidnight then
    if endM ≤ m ∧ m < startM then todayStart else addDays todayStart 1
  else
    if m < startM then todayStart else addDays todayStart 1

/-- `windowFor`: the concrete `[start, end)` window (as absolute times)
containing or starting at `t`. -/
def windowFor (t startM endM : Int) (spansMidnight : Bool) : Int × Int :=
  let m := minutesSinceMidnight t
  let todayStart := dateAtMinutes t startM
  if spansMidnight then
    if startM ≤ m then (todayStart, dateAtMinutes (addDays todayStart 1) endM)
    else (dateAtMinutes (addDays todayStart (-1)) startM, dateAtMinutes t endM)
  else (todayStart, dateAtMinutes t endM)

/-- `alignToInterval`: the first tick of the grid anchored at `windowStart`
with step `interval` that is at or after `cursor` (the millisecond difference
floors to whole minutes; for non-negative operands the JS `%` is `emod`). -/
def alignToInterval (windowStart cursor interval : Int) : Int :=
  let diffMinutes := max 0 (cursor - windowStart)
  let remainder := diffMinutes % interval
  let delta := if remainder = 0 then 0 else interval - remainder
  addMinutes cursor delta

/-- The inner `while` of `generateFireDates`'s bounded-window branch:
step `candidate` by `interval` until window end / horizon / cap, pushing
candidates that are after `now` and on an active day. -/
def collectWindow (interval now horizon windowEnd : Int) (activeDays : List Bool)
    (maxCount : Nat) : Nat → Int → List Int → List Int
  | 0, _, results => results
  | fuel + 1, candidate, results =>
    if candidate < windowEnd ∧ candidate ≤ horizon ∧ results.length < maxCount then
      collectWindow interval now horizon windowEnd activeDays maxCount fuel
        (addMinutes candidate interval)
        (if now < candidate ∧ isDayActive candidate activeDays = true then
          results ++ [candidate]
        else results)
    else results

/-- The outer `while` of `generateFireDates`.  One fuel unit per iteration of
the source loop; the `none` case of `step` is the `break` when the next
window start lies beyond the horizon. -/
def fireLoop (interval startM endM now horizon : Int) (activeDays : List Bool)
    (maxCount : Nat) (allDay spansMidnight : Bool) :
    Nat → Int → List Int → List Int
  | 0, _, results => results
  | fuel + 1, cursor, results =>
    if results.length < maxCount ∧ cursor ≤ horizon then
      if allDay then
        let c0 := alignToInterval (startOfDay cursor) cursor interval
        let candidate := if c0 ≤ now then addMinutes c0 interval else c0
        if horizon < candidate then results
        else
          fireLoop interval startM endM now horizon activeDays maxCount allDay
            spansMidnight fuel (addMinutes candidate interval)
            (if isDayActive candidate activeDays = true then results ++ [candidate]
             else results)
      else
        let step : Option Int :=
          if isWithinWindow cursor startM endM spansMidnight = true then some cursor
          else
            let nextStart := nextWindowStart cursor startM endM spansMidnight
            if horizon < nextStart then none else some nextStart
        match step with
        | none => results
        | some cursor2 =>
          let w := windowFor cursor2 startM endM spansMidnight
          let first := alignToInterval w.1 cursor2 interval
          let results2 := collectWindow interval now horizon w.2 activeDays maxCount
            ((w.2 - first).toNat + 1) first results
          fireLoop interval startM endM now horizon activeDays maxCount allDay
            spansMidnight fuel (addMinutes w.2 1) results2
    else results

/-- The `while` of `generateFallbackDates`: fixed-interval walk keeping
in-window (or all-day) ticks on active days. -/
def fallbackLoop (interval startM endM horizon : Int) (activeDays : List Bool)
    (maxCount : Nat) (allDay spansMidnight : Bool) :
    Nat → Int → List Int → List Int
  | 0, _, results => results
  | fuel + 1, cursor, results =>
    if results.length < maxCount ∧ cursor ≤ horizon then
      fallbackLoop interval startM endM horizon activeDays maxCount allDay
        spansMidnight fuel (addMinutes cursor interval)
        (if (allDay || isWithinWindow cursor startM endM spansMidnight)
            && isDayActive cursor activeDays then
          results ++ [cursor]
        else results)
    else results

structure FallbackInput where
  now : Int
  intervalMinutes : Int
  startMinutes : Int
  endMinutes : Int
  daysOfWeek : List Bool
  maxCount : Nat
  horizonHours : Int

/-- `generateFallbackDates`: walk from `now + intervalMinutes` (the
`setSeconds(0,0)` truncation is the identity at minute resolution). -/
def generateFallbackDates (input : FallbackInput) : List Int :=
  let horizon := input.now + input.horizonHours * 60
  let cursor := addMinutes input.now input.intervalMinutes
  fallbackLoop input.intervalMinutes input.startMinutes input.endMinutes horizon
    input.daysOfWeek input.maxCount
    (decide (input.startMinutes = input.endMinutes))
    (decide (input.endMinutes < input.startMinutes))
    ((horizon - cursor).toNat + 1) cursor []

structure ScheduleInput where
  now : Int
  intervalMinutes : Int
  startMinutesFromMidnight : Int
  endMinutesFromMidnight : Int
  daysOfWeek : Option (List Bool) := none
  maxCount : Option Nat := none
  horizonHours : Option Int := none

/-- Local constant `interval` of `generateFireDates`. -/
def clampedInterval (input : ScheduleInput) : Int :=
  clamp input.intervalMinutes MIN_INTERVAL MAX_INTERVAL

/-- Local constant `startMinutes` of `generateFireDates`. -/
def startMOf (input : ScheduleInput) : Int :=
  normalizeMinutes input.startMinutesFromMidnight

/-- Local constant `endMinutes` of `generateFireDates`. -/
def endMOf (input : ScheduleInput) : Int :=
  normalizeMinutes input.endMinutesFromMidnight

/-- Local constant `maxCount` of `generateFireDates`. -/
def maxCountOf (input : ScheduleInput) : Nat := input.maxCount.getD 50

/-- Local constant `horizonHours` of `generateFireDates`. -/
def horizonHoursOf (input : ScheduleInput) : Int := input.horizonHours.getD 24

/-- Local constant `horizon` of `generateFireDates`. -/
def horizonOf (input : ScheduleInput) : Int :=
  input.now + horizonHoursOf input * 60

/-- Local constant `activeDays` of `generateFireDates`. -/
def activeDaysOf (input : ScheduleInput) : List Bool :=
  normalizeDaysOfWeek input.daysOfWeek

/-- The `results` collected by the primary window-walk of `generateFireDates`
(the state of `results` when the source's main `while` exits). -/
def primaryResults (input : ScheduleInput) : List Int :=
  fireLoop (clampedInterval input) (startMOf input) (endMOf input) input.now
    (horizonOf input) (activeDaysOf input) (maxCountOf input)
    (decide (startMOf input = endMOf input))
    (decide (endMOf input < startMOf input))
    ((horizonOf input - input.now).toNat + 1) input.now []

/-- `generateFireDates`. -/
def generateFireDates (input : ScheduleInput) : List Int :=
  if (activeDaysOf input).any id = false then []
  else if primaryResults input = [] then
    generateFallbackDates
      ⟨input.now, clampedInterval input, startMOf input, endMOf input,
        activeDaysOf input, maxCountOf input, horizonHoursOf input⟩
  else primaryResults input

structure ScheduleRule where
  id : String
  intervalMinutes : Int
  startMinutesFromMidnight : Int
  endMinutesFromMidnight : Int
  message : String
  daysOfWeek : Option (List Bool) := none

structure ScheduledNotification where
  scheduleId : String
  date : Int
  message : String
deriving DecidableEq, Repr

structure QueueInput where
  now : Int
  schedules : List ScheduleRule
  maxCount : Option Nat := none
  horizonHours : Option Int := none

/-- The comparator `(a, b) => a.date.getTime() - b.date.getTime()` of
`buildNotificationQueue`, as the ordering it sorts by. -/
def notifLE (a b : ScheduledNotification) : Bool := a.date ≤ b.date

/-- Local constant `combined` of `buildNotificationQueue`: each schedule's
expansion, tagged with the schedule's id and message, concatenated in input
order. -/
def combinedQueue (input : QueueInput) : List ScheduledNotification :=
  input.schedules.flatMap fun schedule =>
    (generateFireDates
      { now := input.now
        intervalMinutes := schedule.intervalMinutes
        startMinutesFromMidnight := schedule.startMinutesFromMidnight
        endMinutesFromMidnight := schedule.endMinutesFromMidnight
        daysOfWeek := schedule.daysOfWeek
        maxCount := some (input.maxCount.getD 50)
        horizonHours := some (input.horizonHours.getD 24) }).map
      fun date => ⟨schedule.id, date, schedule.message⟩

/-- `buildNotificationQueue`: stable sort by fire time (JS `Array.sort` is
stable), then `slice(0, maxCount)`. -/
def buildNotificationQueue (input : QueueInput) : List ScheduledNotification :=
  ((combinedQueue input).mergeSort notifLE).take (input.maxCount.getD 50)

structure QuietHours where
  enabled : Bool
  startMinutesFromMidnight : Int
  endMinutesFromMidnight : Int

/-- `filterQuietHours` from the notification adapter. -/
def filterQuietHours (queue : List ScheduledNotification)
    (quietHours : Option QuietHours) : List ScheduledNotification :=
  match quietHours with
  | none => queue
  | some qh =>
    if qh.enabled = false then queue
    else
      let startM := qh.startMinutesFromMidnight
      let endM := qh.endMinutesFromMidnight
      if startM = endM then queue
      else
        let spansMidnight := endM < startM
        queue.filter fun item =>
          let m := minutesSinceMidnight item.date
          if spansMidnight then decide (m < startM) && decide (endM ≤ m)
          else decide (m < startM) || decide (endM ≤ m)

/-- A stored schedule (`storage.ts`); the fields the notification adapter
reads.  Geographic gating (`locationId`) is handled outside the adapter and
kept as opaque data. -/
structure Schedule where
  id : String
  name : String
  intervalMinutes : Int
  startMinutesFromMidnight : Int
  endMinutesFromMidnight : Int
  daysOfWeek : List Bool
  message : String
  isActive : Bool
  locationId : Option String

structure QueueOptions where
  now : Int
  maxCount : Option Nat := none
  horizonHours : Option Int := none
  quietHours : Option QuietHours := none

/-- `buildQueue` from the notification adapter (defaults `maxCount = 50`,
`horizonHours = 24 * 7`; `now` is an explicit input of the model). -/
def buildQueue (targetSchedules : List Schedule) (options : QueueOptions) :
    List ScheduledNotification :=
  buildNotificationQueue
    { now := options.now
      schedules := targetSchedules.map fun s =>
        ⟨s.id, s.intervalMinutes, s.startMinutesFromMidnight,
          s.endMinutesFromMidnight, s.message, some s.daysOfWeek⟩
      maxCount := some (options.maxCount.getD 50)
      horizonHours := some (options.horizonHours.getD (24 * 7)) }

/-- One OS-registered notification: its registration identifier and the
`scheduleId` tag stored in its payload. -/
structure PendingNotification where
  identifier : Nat
  scheduleId : String
deriving DecidableEq, Repr

/-- The external notifier's state: the pending registrations and the next
fresh registration identifier. -/
structure NotifierState where
  pending : List PendingNotification
  nextId : Nat
deriving DecidableEq, Repr

/-- `cancelScheduleNotifications`: list all pending registrations, filter by
the `scheduleId` tag, cancel each match; returns the number cancelled. -/
def cancelScheduleNotifications (state : NotifierState) (scheduleId : String) :
    Nat × NotifierState :=
  let matching := state.pending.filter fun item => item.scheduleId == scheduleId
  (matching.length,
    ⟨state.pending.filter (fun item => !(item.scheduleId == scheduleId)),
      state.nextId⟩)

/-- `formatError`: the thrown error's message when it has one, otherwise the
generic fallback text.  A throw is modelled as the message string carried by
the error (empty for a message-less throw). -/
def formatError (message : String) : String :=
  if message = "" then "Please try again." else message

structure BatchResult where
  count : Nat
  error : Option String
deriving DecidableEq, Repr

/-- The `for (const item of queue)` loop of `scheduleBatch`.
`registerResult k` is the outcome of the `k`-th `scheduleNotificationAsync`
call of this batch (`none` = success, `some msg` = throws with message
`msg`).  The single-threaded `await` loop is sequential, so the third
component records the registration calls actually issued, in order.  On a
failure nothing was registered by the failing call; the `catch` block
cancels, for every schedule of the batch, every pending registration tagged
with its id (the `Promise.all` resolves to the same final state as the
sequential fold, each cancellation removing exactly the registrations
carrying its tag), and the batch reports `count = 0` with the formatted
error. -/
def scheduleBatchLoop (registerResult : Nat → Option String)
    (batchIds : List String) :
    List ScheduledNotification → Nat → NotifierState → List ScheduledNotification →
    BatchResult × NotifierState × List ScheduledNotification
  | [], scheduled, state, attempts => (⟨scheduled, none⟩, state, attempts)
  | item :: rest, scheduled, state, attempts =>
    match registerResult attempts.length with
    | none =>
      scheduleBatchLoop registerResult batchIds rest (scheduled + 1)
        ⟨state.pending ++ [⟨state.nextId, item.scheduleId⟩], state.nextId + 1⟩
        (attempts ++ [item])
    | some message =>
      (⟨0, some (formatError message)⟩,
        batchIds.foldl (fun st sid => (cancelScheduleNotifications st sid).2) state,
        attempts ++ [item])

/-- `scheduleBatch`: expand + quiet-hours filter, then register each instant
in order, rolling the whole batch back on the first failure. -/
def scheduleBatch (registerResult : Nat → Option String)
    (targetSchedules : List Schedule) (options : QueueOptions)
    (state : NotifierState) :
    BatchResult × NotifierState × List ScheduledNotification :=
  let queue := filterQuietHours (buildQueue targetSchedules options) options.quietHours
  if queue = [] then (⟨0, none⟩, state, [])
  else
    scheduleBatchLoop registerResult (targetSchedules.map fun s => s.id)
      queue 0 state []

/-- The tick stream of the fallback policy as the spec words it: from
`now + intervalMinutes`, stepping by `intervalMinutes`, up to the horizon
(fuel-bounded; the fuel used below exceeds the tick count whenever the
interval is at least one minute). -/
def ticksUpTo (interval horizon : Int) : Nat → Int → List Int
  | 0, _ => []
  | fuel + 1, cursor =>
    if cursor ≤ horizon then cursor :: ticksUpTo interval horizon fuel (addMinutes cursor interval)
    else []

/-- The fallback walk exactly as the claim describes it: starting at
`now + intervalMinutes` and stepping by `intervalMinutes`, keep exactly the
ticks that lie inside the window (or any tick when all-day) and fall on an
active day, up to the horizon and up to `maxCount`. -/
def fallbackWalkSpec (now interval startM endM : Int) (days : List Bool)
    (maxCount : Nat) (horizon : Int) : List Int :=
  ((ticksUpTo interval horizon ((horizon - (now + interval)).toNat + 1)
      (now + interval)).filter fun t =>
    (decide (startM = endM) || isWithinWindow t startM endM (decide (endM < startM)))
      && isDayActive t days).take maxCount

/-! ### Concrete fixtures for the batch-failure scenario (Scenario E) -/

def batchS1 : Schedule :=
  ⟨"s1", "one", 60, 0, 0, [true, true, true, true, true, true, true],
    "m1", true, none⟩

def batchS2 : Schedule :=
  ⟨"s2", "two", 60, 0, 0, [true, true, true, true, true, true, true],
    "m2", true, none⟩

def batchS3 : Schedule :=
  ⟨"s3", "three", 60, 0, 0, [true, true, true, true, true, true, true],
    "m3", true, none⟩

def batchSchedules : List Schedule := [batchS1, batchS2, batchS3]

/-- The external notifier succeeds on every call but the second. -/
def batchOracle : Nat → Option String :=
  fun k => if k = 1 then some "boom" else none

def batchOptions : QueueOptions := ⟨0, none, some 1, none⟩

def batchState : NotifierState := ⟨[⟨100, "s1"⟩, ⟨101, "zz"⟩], 200⟩

/-! ### Arithmetic helpers -/

theorem normalizeMinutes_nonneg (v : Int) : 0 ≤ normalizeMinutes v :=
  Int.emod_nonneg v (by norm_num)

theorem normalizeMinutes_lt (v : Int) : normalizeMinutes v < 1440 :=
  Int.emod_lt_of_pos v (by norm_num)

theorem clampedInterval_lb (input : ScheduleInput) : 5 ≤ clampedInterval input :=
  le_min (by norm_num [MAX_INTERVAL]) (le_max_left _ _)

theorem clampedInterval_ub (input : ScheduleInput) : clampedInterval input ≤ 180 :=
  min_le_left _ _

theorem startOfDay_eq (t : Int) : startOfDay t = 1440 * (t / 1440) := by
  have h := Int.ediv_add_emod t 1440
  unfold startOfDay
  omega

theorem emod_startOfDay_add (t k : Int) : (startOfDay t + k) % 1440 = k % 1440 := by
  rw [startOfDay_eq, add_comm, Int.add_mul_emod_self_left]

theorem startOfDay_le (t : Int) : startOfDay t ≤ t := by
  have h1 : 0 ≤ t % 1440 := Int.emod_nonneg t (by norm_num)
  unfold startOfDay
  omega

theorem emod_cases (y : Int) (h0 : 0 ≤ y) (h1 : y < 2880) :
    y % 1440 = y ∨ y % 1440 = y - 1440 := by
  rcases lt_or_le y 1440 with h | h
  · exact Or.inl (Int.emod_eq_of_lt h0 h)
  · right
    have hshift : y % 1440 = (y - 1440) % 1440 := by
      conv_lhs => rw [show y = (y - 1440) + 1440 * 1 by ring]
      rw [Int.add_mul_emod_self_left]
    rw [hshift]
    exact Int.emod_eq_of_lt (by omega) (by omega)

/-- The minute of day of a point of an absolute window of length at most a
day whose start has minute of day `startM`. -/
theorem emod_of_window_point {s x startM L : Int} (hs : s % 1440 = startM)
    (hL : L ≤ 1440) (hx1 : s ≤ x) (hx2 : x < s + L) :
    x % 1440 = startM + (x - s) ∨ x % 1440 = startM + (x - s) - 1440 := by
  have hq := Int.emod_add_ediv s 1440
  have hx : x % 1440 = (startM + (x - s)) % 1440 := by
    conv_lhs => rw [show x = (startM + (x - s)) + 1440 * (s / 1440) by omega]
    rw [Int.add_mul_emod_self_left]
  have hsu : startM < 1440 := by
    have := Int.emod_lt_of_pos s (show (0:Int) < 1440 by norm_num)
    omega
  rw [hx]
  exact emod_cases _ (by omega) (by omega)

theorem alignToInterval_ge (ws cursor interval : Int) (h : 0 < interval) :
    cursor ≤ alignToInterval ws cursor interval := by
  unfold alignToInterval addMinutes
  have h1 : 0 ≤ (max 0 (cursor - ws)) % interval := Int.emod_nonneg _ (by omega)
  have h2 : (max 0 (cursor - ws)) % interval < interval := Int.emod_lt_of_pos _ h
  dsimp only
  split <;> omega

theorem alignToInterval_lt (ws cursor interval : Int) (h : 0 < interval) :
    alignToInterval ws cursor interval < cursor + interval := by
  unfold alignToInterval addMinutes
  have h1 : 0 ≤ (max 0 (cursor - ws)) % interval := Int.emod_nonneg _ (by omega)
  have h2 : (max 0 (cursor - ws)) % interval < interval := Int.emod_lt_of_pos _ h
  dsimp only
  split <;> omega

theorem alignToInterval_dvd (ws cursor interval : Int)
    (hws : ws ≤ cursor) :
    interval ∣ (alignToInterval ws cursor interval - ws) := by
  have hmax : max 0 (cursor - ws) = cursor - ws := max_eq_right (by omega)
  have hq := Int.emod_add_ediv (cursor - ws) interval
  unfold alignToInterval addMinutes
  dsimp only
  rw [hmax]
  split
  · rename_i h0
    exact ⟨(cursor - ws) / interval, by linarith⟩
  · rename_i h0
    exact ⟨(cursor - ws) / interval + 1, by rw [mul_add, mul_one]; linarith⟩

theorem startOfDay_shift (t n k : Int) (h0 : 0 ≤ k) (h1 : k < 1440) :
    startOfDay (startOfDay t + 1440 * n + k) = startOfDay t + 1440 * n := by
  have he : (startOfDay t + 1440 * n + k) % 1440 = k := by
    rw [show startOfDay t + 1440 * n + k = (startOfDay t + k) + 1440 * n by ring,
      Int.add_mul_emod_self_left, emod_startOfDay_add]
    exact Int.emod_eq_of_lt h0 h1
  have h2 : startOfDay (startOfDay t + 1440 * n + k) =
      (startOfDay t + 1440 * n + k) - (startOfDay t + 1440 * n + k) % 1440 := rfl
  rw [h2, he]
  ring

theorem isWithinWindow_iff (t startM endM : Int) (sp : Bool) :
    isWithinWindow t startM endM sp = true ↔
      (if sp = true then startM ≤ t % 1440 ∨ t % 1440 < endM
       else startM ≤ t % 1440 ∧ t % 1440 < endM) := by
  unfold isWithinWindow minutesSinceMidnight
  cases sp <;> simp

/-! ### Window geometry -/

/-- For a cursor inside its window, `windowFor` yields an absolute window
containing the cursor, starting at minute-of-day `startM`, of the expected
length (at most one day). -/
theorem windowFor_spec (c startM endM : Int)
    (hs0 : 0 ≤ startM) (hs1 : startM < 1440) (he0 : 0 ≤ endM) (he1 : endM < 1440)
    (hne : startM ≠ endM)
    (hin : isWithinWindow c startM endM (decide (endM < startM)) = true) :
    (windowFor c startM endM (decide (endM < startM))).1 ≤ c ∧
    c < (windowFor c startM endM (decide (endM < startM))).2 ∧
    (windowFor c startM endM (decide (endM < startM))).1 % 1440 = startM ∧
    (windowFor c startM endM (decide (endM < startM))).2 =
      (windowFor c startM endM (decide (endM < startM))).1 +
        (if endM < startM then 1440 - startM + endM else endM - startM) := by
  have hm0 : 0 ≤ c % 1440 := Int.emod_nonneg c (by norm_num)
  have hm1 : c % 1440 < 1440 := Int.emod_lt_of_pos c (by norm_num)
  have hsd : startOfDay c = c - c % 1440 := rfl
  have hsm : startM % 1440 = startM := Int.emod_eq_of_lt hs0 hs1
  rw [isWithinWindow_iff] at hin
  by_cases hcr : endM < startM
  · have hsp : decide (endM < startM) = true := decide_eq_true hcr
    rw [hsp, if_pos rfl] at hin
    by_cases hge : startM ≤ c % 1440
    · have hw : windowFor c startM endM (decide (endM < startM)) =
          (startOfDay c + startM, startOfDay c + 1440 * 1 + endM) := by
        unfold windowFor dateAtMinutes addDays minutesSinceMidnight
        rw [hsp, if_pos rfl, if_pos hge,
          show startOfDay c + startM + 1440 * 1 =
            startOfDay c + 1440 * 1 + startM by ring,
          startOfDay_shift c 1 startM hs0 hs1]
      rw [hw]
      refine ⟨by omega, by omega, ?_, ?_⟩
      · rw [emod_startOfDay_add, hsm]
      · rw [if_pos hcr]
        ring
    · have hlt : c % 1440 < endM := hin.resolve_left hge
      have hw : windowFor c startM endM (decide (endM < startM)) =
          (startOfDay c + 1440 * (-1) + startM, startOfDay c + endM) := by
        unfold windowFor dateAtMinutes addDays minutesSinceMidnight
        rw [hsp, if_pos rfl, if_neg hge,
          show startOfDay c + startM + 1440 * (-1) =
            startOfDay c + 1440 * (-1) + startM by ring,
          startOfDay_shift c (-1) startM hs0 hs1]
      rw [hw]
      refine ⟨by omega, by omega, ?_, ?_⟩
      · rw [show startOfDay c + 1440 * (-1) + startM =
            (startOfDay c + startM) + 1440 * (-1) by ring,
          Int.add_mul_emod_self_left, emod_startOfDay_add, hsm]
      · rw [if_pos hcr]
        ring
  · have hsp : decide (endM < startM) = false := decide_eq_false hcr
    rw [hsp, if_neg Bool.false_ne_true] at hin
    have hw : windowFor c startM endM (decide (endM < startM)) =
        (startOfDay c + startM, startOfDay c + endM) := by
      unfold windowFor dateAtMinutes addDays minutesSinceMidnight
      rw [hsp, if_neg Bool.false_ne_true]
    rw [hw]
    refine ⟨by omega, by omega, ?_, ?_⟩
    · rw [emod_startOfDay_add, hsm]
    · rw [if_neg hcr]
      ring

/-- For a cursor strictly outside its window, `nextWindowStart` moves
strictly forward and lands inside the window. -/
theorem nextWindowStart_spec (c startM endM : Int)
    (hs0 : 0 ≤ startM) (hs1 : startM < 1440) (he0 : 0 ≤ endM) (he1 : endM < 1440)
    (hne : startM ≠ endM)
    (hnin : isWithinWindow c startM endM (decide (endM < startM)) = false) :
    c < nextWindowStart c startM endM (decide (endM < startM)) ∧
    isWithinWindow (nextWindowStart c startM endM (decide (endM < startM)))
      startM endM (decide (endM < startM)) = true := by
  have hm0 : 0 ≤ c % 1440 := Int.emod_nonneg c (by norm_num)
  have hm1 : c % 1440 < 1440 := Int.emod_lt_of_pos c (by norm_num)
  have hsd : startOfDay c = c - c % 1440 := rfl
  have hsm : startM % 1440 = startM := Int.emod_eq_of_lt hs0 hs1
  have hnin' := hnin
  rw [← Bool.not_eq_true, isWithinWindow_iff] at hnin'
  by_cases hcr : endM < startM
  · have hsp : decide (endM < startM) = true := decide_eq_true hcr
    rw [hsp, if_pos rfl] at hnin'
    push_neg at hnin'
    have hn : nextWindowStart c startM endM (decide (endM < startM)) =
        startOfDay c + startM := by
      unfold nextWindowStart dateAtMinutes minutesSinceMidnight
      rw [hsp, if_pos rfl, if_pos (⟨hnin'.2, hnin'.1⟩ :
        endM ≤ c % 1440 ∧ c % 1440 < startM)]
    rw [hn]
    refine ⟨by omega, ?_⟩
    rw [isWithinWindow_iff, hsp, if_pos rfl, emod_startOfDay_add, hsm]
    exact Or.inl (le_refl _)
  · have hsp : decide (endM < startM) = false := decide_eq_false hcr
    have hlt : startM < endM := by omega
    rw [hsp, if_neg Bool.false_ne_true] at hnin'
    push_neg at hnin'
    by_cases hbr : c % 1440 < startM
    · have hn : nextWindowStart c startM endM (decide (endM < startM)) =
          startOfDay c + startM := by
        unfold nextWindowStart dateAtMinutes minutesSinceMidnight
        rw [hsp, if_neg Bool.false_ne_true, if_pos hbr]
      rw [hn]
      refine ⟨by omega, ?_⟩
      rw [isWithinWindow_iff, hsp, if_neg Bool.false_ne_true,
        emod_startOfDay_add, hsm]
      exact ⟨le_refl _, hlt⟩
    · have hn : nextWindowStart c startM endM (decide (endM < startM)) =
          startOfDay c + startM + 1440 * 1 := by
        unfold nextWindowStart dateAtMinutes addDays minutesSinceMidnight
        rw [hsp, if_neg Bool.false_ne_true, if_neg hbr]
      rw [hn]
      refine ⟨by omega, ?_⟩
      rw [isWithinWindow_iff, hsp, if_neg Bool.false_ne_true,
        show startOfDay c + startM + 1440 * 1 =
          (startOfDay c + startM) + 1440 * 1 by ring,
        Int.add_mul_emod_self_left, emod_startOfDay_add, hsm]
      exact ⟨le_refl _, hlt⟩

/-! ### Loop invariants -/

theorem chain_append_lt {l : List Int} {a : Int} (hc : l.Chain' (· < ·))
    (hlt : ∀ r ∈ l, r < a) : (l ++ [a]).Chain' (· < ·) := by
  rw [List.chain'_append]
  refine ⟨hc, List.chain'_singleton a, ?_⟩
  intro x hx y hy
  simp only [List.head?_cons, Option.mem_def, Option.some.injEq] at hy
  subst hy
  exact hlt x (List.mem_of_mem_getLast? hx)

/-- Every element of the inner window walk is an old element or a pushed
candidate: after `now`, within horizon and window end, on an active day, at
or after the first candidate. -/
theorem collectWindow_mem (interval now horizon windowEnd : Int)
    (activeDays : List Bool) (maxCount : Nat) (hpos : 0 < interval) :
    ∀ fuel candidate results x,
      x ∈ collectWindow interval now horizon windowEnd activeDays maxCount fuel
        candidate results →
      x ∈ results ∨ (now < x ∧ x ≤ horizon ∧ x < windowEnd ∧
        isDayActive x activeDays = true ∧ candidate ≤ x) := by
  intro fuel
  induction fuel with
  | zero => exact fun candidate results x hx => Or.inl hx
  | succ n ih =>
    intro candidate results x hx
    simp only [collectWindow] at hx
    split at hx
    · rename_i hcond
      rcases ih _ _ x hx with hmem | hP
      · split at hmem
        · rename_i hpush
          rcases List.mem_append.mp hmem with hold | hnew
          · exact Or.inl hold
          · have hxc : x = candidate := List.mem_singleton.mp hnew
            subst hxc
            exact Or.inr ⟨hpush.1, hcond.2.1, hcond.1, hpush.2, le_refl x⟩
        · exact Or.inl hmem
      · refine Or.inr ⟨hP.1, hP.2.1, hP.2.2.1, hP.2.2.2.1, ?_⟩
        have := hP.2.2.2.2
        unfold addMinutes at this
        omega
    · exact Or.inl hx

/-- The inner window walk preserves strict sortedness and pushes only
below the window end. -/
theorem collectWindow_chain (interval now horizon windowEnd : Int)
    (activeDays : List Bool) (maxCount : Nat) (hpos : 0 < interval) :
    ∀ fuel candidate results, results.Chain' (· < ·) →
      (∀ r ∈ results, r < candidate) →
      (collectWindow interval now horizon windowEnd activeDays maxCount fuel
        candidate results).Chain' (· < ·) ∧
      ∀ r ∈ collectWindow interval now horizon windowEnd activeDays maxCount fuel
        candidate results, r ∈ results ∨ r < windowEnd := by
  intro fuel
  induction fuel with
  | zero => exact fun candidate results hc hb => ⟨hc, fun r hr => Or.inl hr⟩
  | succ n ih =>
    intro candidate results hc hb
    simp only [collectWindow]
    split
    · rename_i hcond
      have hc2 : (if now < candidate ∧ isDayActive candidate activeDays = true then
          results ++ [candidate] else results).Chain' (· < ·) := by
        split
        · exact chain_append_lt hc hb
        · exact hc
      have hb2 : ∀ r ∈ (if now < candidate ∧ isDayActive candidate activeDays = true
          then results ++ [candidate] else results), r < addMinutes candidate interval := by
        unfold addMinutes
        split
        · intro r hr
          rcases List.mem_append.mp hr with hold | hnew
          · have := hb r hold
            omega
          · have := List.mem_singleton.mp hnew
            omega
        · intro r hr
          have := hb r hr
          omega
      obtain ⟨hchain, hsub⟩ := ih _ _ hc2 hb2
      refine ⟨hchain, fun r hr => ?_⟩
      rcases hsub r hr with hmem | hlt
      · split at hmem
        · rename_i hpush
          rcases List.mem_append.mp hmem with hold | hnew
          · exact Or.inl hold
          · have := List.mem_singleton.mp hnew
            subst this
            exact Or.inr hcond.1
        · exact Or.inl hmem
      · exact Or.inr hlt
    · exact ⟨hc, fun r hr => Or.inl hr⟩

/-- The inner window walk never exceeds the cap. -/
theorem collectWindow_length (interval now horizon windowEnd : Int)
    (activeDays : List Bool) (maxCount : Nat) :
    ∀ fuel candidate results, results.length ≤ maxCount →
      (collectWindow interval now horizon windowEnd activeDays maxCount fuel
        candidate results).length ≤ maxCount := by
  intro fuel
  induction fuel with
  | zero => exact fun candidate results h => h
  | succ n ih =>
    intro candidate results h
    simp only [collectWindow]
    split
    · rename_i hcond
      refine ih _ _ ?_
      split
      · simp only [List.length_append, List.length_singleton]
        omega
      · exact h
    · exact h

/-- Every element of the primary walk's result is an old element or a
pushed candidate: strictly after `now`, within the horizon, on an active
day, inside the minute window (bounded case) or aligned to its own or the
previous day's midnight (all-day case). -/
theorem fireLoop_mem (interval startM endM now horizon : Int)
    (activeDays : List Bool) (maxCount : Nat)
    (hpos : 0 < interval) (hle : interval ≤ 180)
    (hs0 : 0 ≤ startM) (hs1 : startM < 1440) (he0 : 0 ≤ endM) (he1 : endM < 1440) :
    ∀ fuel cursor results x, now - interval < cursor →
      x ∈ fireLoop interval startM endM now horizon activeDays maxCount
        (decide (startM = endM)) (decide (endM < startM)) fuel cursor results →
      x ∈ results ∨
        (now < x ∧ x ≤ horizon ∧ isDayActive x activeDays = true ∧
          (startM = endM → interval ∣ x % 1440 ∨ interval ∣ (x % 1440 + 1440)) ∧
          (startM < endM → startM ≤ x % 1440 ∧ x % 1440 < endM) ∧
          (endM < startM → startM ≤ x % 1440 ∨ x % 1440 < endM)) := by
  intro fuel
  induction fuel with
  | zero => exact fun cursor results x _ hx => Or.inl hx
  | succ n ih =>
    intro cursor results x hcur hx
    simp only [fireLoop] at hx
    split at hx
    case isFalse => exact Or.inl hx
    case isTrue hguard =>
      split at hx
      case isTrue hadT =>
        -- all-day branch
        have hse : startM = endM := of_decide_eq_true hadT
        have hc0ge : cursor ≤ alignToInterval (startOfDay cursor) cursor interval :=
          alignToInterval_ge _ _ _ hpos
        have hc0lt : alignToInterval (startOfDay cursor) cursor interval <
            cursor + interval := alignToInterval_lt _ _ _ hpos
        have hc0dvd : interval ∣
            (alignToInterval (startOfDay cursor) cursor interval - startOfDay cursor) :=
          alignToInterval_dvd _ _ _ (startOfDay_le cursor)
        have hcs : cursor - startOfDay cursor = cursor % 1440 := by
          unfold startOfDay
          ring
        have hm0 : 0 ≤ cursor % 1440 := Int.emod_nonneg cursor (by norm_num)
        have hm1 : cursor % 1440 < 1440 := Int.emod_lt_of_pos cursor (by norm_num)
        -- key fact shared by both bump cases
        have key : ∀ cand : Int, now < cand → ¬ horizon < cand →
            interval ∣ (cand - startOfDay cursor) →
            0 ≤ cand - startOfDay cursor → cand - startOfDay cursor < 2880 →
            x ∈ fireLoop interval startM endM now horizon activeDays maxCount
              (decide (startM = endM)) (decide (endM < startM)) n
              (addMinutes cand interval)
              (if isDayActive cand activeDays = true then results ++ [cand]
               else results) →
            x ∈ results ∨
              (now < x ∧ x ≤ horizon ∧ isDayActive x activeDays = true ∧
                (startM = endM → interval ∣ x % 1440 ∨ interval ∣ (x % 1440 + 1440)) ∧
                (startM < endM → startM ≤ x % 1440 ∧ x % 1440 < endM) ∧
                (endM < startM → startM ≤ x % 1440 ∨ x % 1440 < endM)) := by
          intro cand hnow hhor hdvd hlo hhi hrec
          have hcur2 : now - interval < addMinutes cand interval := by
            unfold addMinutes
            omega
          rcases ih _ _ x hcur2 hrec with hmem | hP
          · split at hmem
            · rename_i hact
              rcases List.mem_append.mp hmem with hold | hnew
              · exact Or.inl hold
              · have hxc : x = cand := List.mem_singleton.mp hnew
                subst hxc
                refine Or.inr ⟨hnow, by omega, hact, ?_, ?_, ?_⟩
                · intro _
                  have hrwx : x % 1440 = (x - startOfDay cursor) % 1440 := by
                    conv_lhs => rw [show x = startOfDay cursor + (x - startOfDay cursor)
                      by ring]
                    rw [emod_startOfDay_add]
                  rcases emod_cases (x - startOfDay cursor) hlo hhi with h | h
                  · exact Or.inl (by rw [hrwx, h]; exact hdvd)
                  · refine Or.inr ?_
                    have : x % 1440 + 1440 = x - startOfDay cursor := by
                      rw [hrwx, h]
                      ring
                    rw [this]
                    exact hdvd
                · intro hord
                  omega
                · intro hord
                  omega
            · exact Or.inl hmem
          · exact Or.inr hP
        split at hx
        case isTrue hbump =>
          split at hx
          case isTrue => exact Or.inl hx
          case isFalse hhor =>
            refine key _ ?_ hhor ?_ ?_ ?_ hx
            · unfold addMinutes
              omega
            · unfold addMinutes
              obtain ⟨k, hk⟩ := hc0dvd
              refine ⟨k + 1, ?_⟩
              rw [mul_add, mul_one]
              linarith
            · unfold addMinutes
              omega
            · unfold addMinutes
              omega
        case isFalse hbump =>
          split at hx
          case isTrue => exact Or.inl hx
          case isFalse hhor =>
            refine key _ (by omega) hhor hc0dvd (by omega) (by omega) hx
      case isFalse hadF =>
        -- bounded-window branch
        have hne : startM ≠ endM := fun h => hadF (decide_eq_true h)
        split at hx
        case h_1 => exact Or.inl hx
        case h_2 cursor2 heq =>
          have hstep : isWithinWindow cursor2 startM endM (decide (endM < startM)) = true ∧
              cursor ≤ cursor2 := by
            by_cases hwin : isWithinWindow cursor startM endM (decide (endM < startM)) = true
            · rw [if_pos hwin] at heq
              have : cursor = cursor2 := Option.some.inj heq
              subst this
              exact ⟨hwin, le_refl _⟩
            · rw [if_neg hwin] at heq
              split at heq
              · exact absurd heq (by simp)
              · have hns := nextWindowStart_spec cursor startM endM hs0 hs1 he0 he1 hne
                  (Bool.not_eq_true _ ▸ hwin)
                have : nextWindowStart cursor startM endM (decide (endM < startM)) =
                    cursor2 := Option.some.inj heq
                rw [this] at hns
                exact ⟨hns.2, le_of_lt hns.1⟩
          obtain ⟨hwin2, hcc2⟩ := hstep
          obtain ⟨hw1, hw2, hwm, hwlen⟩ :=
            windowFor_spec cursor2 startM endM hs0 hs1 he0 he1 hne hwin2
          have hfg : cursor2 ≤
              alignToInterval (windowFor cursor2 startM endM
                (decide (endM < startM))).1 cursor2 interval :=
            alignToInterval_ge _ _ _ hpos
          have hcur2 : now - interval <
              addMinutes (windowFor cursor2 startM endM (decide (endM < startM))).2 1 := by
            unfold addMinutes
            omega
          rcases ih _ _ x hcur2 hx with hmem2 | hP
          · rcases collectWindow_mem interval now horizon
              (windowFor cursor2 startM endM (decide (endM < startM))).2 activeDays
              maxCount hpos _ _ _ x hmem2 with hold | hnew
            · exact Or.inl hold
            · obtain ⟨hn1, hn2, hn3, hn4, hn5⟩ := hnew
              have hx1 : (windowFor cursor2 startM endM (decide (endM < startM))).1 ≤ x :=
                le_trans (le_trans hw1 hfg) hn5
              have hxm0 : 0 ≤ x % 1440 := Int.emod_nonneg x (by norm_num)
              have hxm1 : x % 1440 < 1440 := Int.emod_lt_of_pos x (by norm_num)
              refine Or.inr ⟨hn1, hn2, hn4, fun h => absurd h hne, ?_, ?_⟩
              · intro hord
                have hL : (windowFor cursor2 startM endM (decide (endM < startM))).2 =
                    (windowFor cursor2 startM endM (decide (endM < startM))).1 +
                      (endM - startM) := by
                  rw [hwlen, if_neg (by omega)]
                have hdis := emod_of_window_point hwm
                  (L := endM - startM) (by omega) hx1 (by omega)
                omega
              · intro hord
                have hL : (windowFor cursor2 startM endM (decide (endM < startM))).2 =
                    (windowFor cursor2 startM endM (decide (endM < startM))).1 +
                      (1440 - startM + endM) := by
                  rw [hwlen, if_pos hord]
                have hdis := emod_of_window_point hwm
                  (L := 1440 - startM + endM) (by omega) hx1 (by omega)
                omega
          · exact Or.inr hP

/-- The primary walk returns a strictly increasing list. -/
theorem fireLoop_chain (interval startM endM now horizon : Int)
    (activeDays : List Bool) (maxCount : Nat)
    (hpos : 0 < interval)
    (hs0 : 0 ≤ startM) (hs1 : startM < 1440) (he0 : 0 ≤ endM) (he1 : endM < 1440) :
    ∀ fuel cursor results, results.Chain' (· < ·) → (∀ r ∈ results, r < cursor) →
      (fireLoop interval startM endM now horizon activeDays maxCount
        (decide (startM = endM)) (decide (endM < startM)) fuel cursor
        results).Chain' (· < ·) := by
  intro fuel
  induction fuel with
  | zero => exact fun cursor results hc hb => hc
  | succ n ih =>
    intro cursor results hc hb
    simp only [fireLoop]
    split
    case isFalse => exact hc
    case isTrue hguard =>
      split
      case isTrue hadT =>
        have hc0ge : cursor ≤ alignToInterval (startOfDay cursor) cursor interval :=
          alignToInterval_ge _ _ _ hpos
        have key : ∀ cand : Int, cursor ≤ cand →
            (if horizon < cand then results
             else fireLoop interval startM endM now horizon activeDays maxCount
               (decide (startM = endM)) (decide (endM < startM)) n
               (addMinutes cand interval)
               (if isDayActive cand activeDays = true then results ++ [cand]
                else results)).Chain' (· < ·) := by
          intro cand hcand
          split
          · exact hc
          · refine ih _ _ ?_ ?_
            · split
              · exact chain_append_lt hc fun r hr => lt_of_lt_of_le (hb r hr) hcand
              · exact hc
            · unfold addMinutes
              split
              · intro r hr
                rcases List.mem_append.mp hr with hold | hnew
                · have := hb r hold
                  omega
                · have := List.mem_singleton.mp hnew
                  omega
              · intro r hr
                have := hb r hr
                omega
        split
        case isTrue hbump => exact key _ (by unfold addMinutes; omega)
        case isFalse hbump => exact key _ hc0ge
      case isFalse hadF =>
        have hne : startM ≠ endM := fun h => hadF (decide_eq_true h)
        split
        case h_1 => exact hc
        case h_2 cursor2 heq =>
          have hstep : isWithinWindow cursor2 startM endM
              (decide (endM < startM)) = true ∧ cursor ≤ cursor2 := by
            by_cases hwin : isWithinWindow cursor startM endM
              (decide (endM < startM)) = true
            · rw [if_pos hwin] at heq
              have : cursor = cursor2 := Option.some.inj heq
              subst this
              exact ⟨hwin, le_refl _⟩
            · rw [if_neg hwin] at heq
              split at heq
              · exact absurd heq (by simp)
              · have hns := nextWindowStart_spec cursor startM endM hs0 hs1 he0 he1
                  hne (Bool.not_eq_true _ ▸ hwin)
                have : nextWindowStart cursor startM endM (decide (endM < startM)) =
                    cursor2 := Option.some.inj heq
                rw [this] at hns
                exact ⟨hns.2, le_of_lt hns.1⟩
          obtain ⟨hwin2, hcc2⟩ := hstep
          obtain ⟨hw1, hw2, hwm, hwlen⟩ :=
            windowFor_spec cursor2 startM endM hs0 hs1 he0 he1 hne hwin2
          have hfg : cursor2 ≤ alignToInterval (windowFor cursor2 startM endM
              (decide (endM < startM))).1 cursor2 interval :=
            alignToInterval_ge _ _ _ hpos
          obtain ⟨hchain2, hsub2⟩ := collectWindow_chain interval now horizon
            (windowFor cursor2 startM endM (decide (endM < startM))).2 activeDays
            maxCount hpos _ (alignToInterval (windowFor cursor2 startM endM
              (decide (endM < startM))).1 cursor2 interval) results hc
            (fun r hr => lt_of_lt_of_le (hb r hr) (le_trans hcc2 hfg))
          refine ih _ _ hchain2 ?_
          intro r hr
          unfold addMinutes
          rcases hsub2 r hr with hold | hlt
          · have := hb r hold
            omega
          · omega

/-- The primary walk never exceeds the cap. -/
theorem fireLoop_length (interval startM endM now horizon : Int)
    (activeDays : List Bool) (maxCount : Nat) (allDay spansMidnight : Bool) :
    ∀ fuel cursor results, results.length ≤ maxCount →
      (fireLoop interval startM endM now horizon activeDays maxCount
        allDay spansMidnight fuel cursor results).length ≤ maxCount := by
  intro fuel
  induction fuel with
  | zero => exact fun cursor results h => h
  | succ n ih =>
    intro cursor results h
    simp only [fireLoop]
    split
    case isFalse => exact h
    case isTrue hguard =>
      split
      case isTrue hadT =>
        split
        case isTrue hbump =>
          split
          · exact h
          · refine ih _ _ ?_
            split
            · simp only [List.length_append, List.length_singleton]
              omega
            · exact h
        case isFalse hbump =>
          split
          · exact h
          · refine ih _ _ ?_
            split
            · simp only [List.length_append, List.length_singleton]
              omega
            · exact h
      case isFalse hadF =>
        split
        case h_1 => exact h
        case h_2 cursor2 heq =>
          exact ih _ _ (collectWindow_length _ _ _ _ _ _ _ _ _ h)

/-- Every element of the fallback walk is an old element or a kept tick:
within the horizon, at or after the first tick, inside the window (or any
tick when all-day) and on an active day. -/
theorem fallbackLoop_mem (interval startM endM horizon : Int)
    (activeDays : List Bool) (maxCount : Nat) (allDay spansMidnight : Bool)
    (hpos : 0 < interval) :
    ∀ fuel cursor results x,
      x ∈ fallbackLoop interval startM endM horizon activeDays maxCount allDay
        spansMidnight fuel cursor results →
      x ∈ results ∨ (x ≤ horizon ∧ cursor ≤ x ∧
        ((allDay || isWithinWindow x startM endM spansMidnight)
          && isDayActive x activeDays) = true) := by
  intro fuel
  induction fuel with
  | zero => exact fun cursor results x hx => Or.inl hx
  | succ n ih =>
    intro cursor results x hx
    simp only [fallbackLoop] at hx
    split at hx
    · rename_i hcond
      rcases ih _ _ x hx with hmem | hP
      · split at hmem
        · rename_i hpush
          rcases List.mem_append.mp hmem with hold | hnew
          · exact Or.inl hold
          · have hxc : x = cursor := List.mem_singleton.mp hnew
            subst hxc
            exact Or.inr ⟨hcond.2, le_refl x, hpush⟩
        · exact Or.inl hmem
      · refine Or.inr ⟨hP.1, ?_, hP.2.2⟩
        have := hP.2.1
        unfold addMinutes at this
        omega
    · exact Or.inl hx

/-- The fallback walk returns a strictly increasing list. -/
theorem fallbackLoop_chain (interval startM endM horizon : Int)
    (activeDays : List Bool) (maxCount : Nat) (allDay spansMidnight : Bool)
    (hpos : 0 < interval) :
    ∀ fuel cursor results, results.Chain' (· < ·) →
      (∀ r ∈ results, r < cursor) →
      (fallbackLoop interval startM endM horizon activeDays maxCount allDay
        spansMidnight fuel cursor results).Chain' (· < ·) := by
  intro fuel
  induction fuel with
  | zero => exact fun cursor results hc hb => hc
  | succ n ih =>
    intro cursor results hc hb
    simp only [fallbackLoop]
    split
    · rename_i hcond
      refine ih _ _ ?_ ?_
      · split
        · exact chain_append_lt hc hb
        · exact hc
      · unfold addMinutes
        split
        · intro r hr
          rcases List.mem_append.mp hr with hold | hnew
          · have := hb r hold
            omega
          · have := List.mem_singleton.mp hnew
            omega
        · intro r hr
          have := hb r hr
          omega
    · exact hc

/-- The fallback walk never exceeds the cap. -/
theorem fallbackLoop_length (interval startM endM horizon : Int)
    (activeDays : List Bool) (maxCount : Nat) (allDay spansMidnight : Bool) :
    ∀ fuel cursor results, results.length ≤ maxCount →
      (fallbackLoop interval startM endM horizon activeDays maxCount allDay
        spansMidnight fuel cursor results).length ≤ maxCount := by
  intro fuel
  induction fuel with
  | zero => exact fun cursor results h => h
  | succ n ih =>
    intro cursor results h
    simp only [fallbackLoop]
    split
    · rename_i hcond
      refine ih _ _ ?_
      split
      · simp only [List.length_append, List.length_singleton]
        omega
      · exact h
    · exact h

/-- The fallback walk is exactly "filter the tick stream, take the cap". -/
theorem fallbackLoop_eq (interval startM endM horizon : Int)
    (activeDays : List Bool) (maxCount : Nat) (allDay spansMidnight : Bool) :
    ∀ fuel cursor results, results.length ≤ maxCount →
      fallbackLoop interval startM endM horizon activeDays maxCount allDay
        spansMidnight fuel cursor results =
      results ++ ((ticksUpTo interval horizon fuel cursor).filter fun t =>
        (allDay || isWithinWindow t startM endM spansMidnight)
          && isDayActive t activeDays).take (maxCount - results.length) := by
  intro fuel
  induction fuel with
  | zero => simp [fallbackLoop, ticksUpTo]
  | succ n ih =>
    intro cursor results hlen
    simp only [fallbackLoop, ticksUpTo]
    by_cases hhor : cursor ≤ horizon
    · rw [if_pos hhor]
      by_cases hcap : results.length < maxCount
      · rw [if_pos ⟨hcap, hhor⟩, List.filter_cons]
        by_cases hkeep : ((allDay || isWithinWindow cursor startM endM spansMidnight)
            && isDayActive cursor activeDays) = true
        · rw [if_pos hkeep, if_pos hkeep]
          have hsucc : maxCount - results.length =
              (maxCount - (results.length + 1)) + 1 := by omega
          rw [hsucc, List.take_succ_cons, ih _ _ (by simp; omega)]
          simp only [List.length_append, List.length_singleton, List.append_assoc,
            List.cons_append, List.nil_append]
        · rw [if_neg hkeep, if_neg hkeep, ih _ _ (le_of_lt hcap)]
      · rw [if_neg (fun h => hcap h.1)]
        have : maxCount - results.length = 0 := by omega
        rw [this, List.take_zero, List.append_nil]
    · rw [if_neg hhor, if_neg (fun h => hhor h.2), List.filter_nil, List.take_nil,
        List.append_nil]

/-! ### Top-level facts about generateFireDates -/

theorem getD_false_of_any_false {l : List Bool} (h : l.any id = false) (n : Nat) :
    l.getD n false = false := by
  rw [List.getD_eq_getElem?_getD]
  cases hl : l[n]? with
  | none => rfl
  | some b =>
    have hb : b ∈ l := List.getElem?_mem hl
    have hfalse := (List.any_eq_false.mp h) b hb
    simp only [id_eq, Bool.not_eq_true] at hfalse
    simp [hfalse]

theorem isDayActive_false_of_any_false {l : List Bool} (h : l.any id = false)
    (t : Int) : isDayActive t l = false := by
  unfold isDayActive
  exact getD_false_of_any_false h _

theorem clampedInterval_pos (input : ScheduleInput) : 0 < clampedInterval input := by
  have := clampedInterval_lb input
  omega

/-- Master membership fact: every returned fire date is strictly after `now`,
within the horizon, on an active day; in the bounded-window case its minute
of day lies in the window; in the all-day case, when the result comes from
the primary walk, it is aligned to its own or the previous day's midnight. -/
theorem generateFireDates_mem (input : ScheduleInput) (t : Int)
    (ht : t ∈ generateFireDates input) :
    input.now < t ∧ t ≤ horizonOf input ∧
    isDayActive t (activeDaysOf input) = true ∧
    (startMOf input = endMOf input → primaryResults input ≠ [] →
      clampedInterval input ∣ t % 1440 ∨
        clampedInterval input ∣ (t % 1440 + 1440)) ∧
    (startMOf input < endMOf input →
      startMOf input ≤ t % 1440 ∧ t % 1440 < endMOf input) ∧
    (endMOf input < startMOf input →
      startMOf input ≤ t % 1440 ∨ t % 1440 < endMOf input) := by
  have hpos := clampedInterval_pos input
  have hub := clampedInterval_ub input
  have hs0 : 0 ≤ startMOf input := normalizeMinutes_nonneg _
  have hs1 : startMOf input < 1440 := normalizeMinutes_lt _
  have he0 : 0 ≤ endMOf input := normalizeMinutes_nonneg _
  have he1 : endMOf input < 1440 := normalizeMinutes_lt _
  unfold generateFireDates at ht
  split at ht
  · exact absurd ht (List.not_mem_nil t)
  · rename_i hmask
    split at ht
    · rename_i hprim
      unfold generateFallbackDates at ht
      dsimp only at ht
      rcases fallbackLoop_mem _ _ _ _ _ _ _ _ hpos _ _ _ t ht with hnil | hkeep
      · exact absurd hnil (List.not_mem_nil t)
      · obtain ⟨hhor, hge, hcond⟩ := hkeep
        rw [Bool.and_eq_true] at hcond
        obtain ⟨hwin, hact⟩ := hcond
        unfold addMinutes at hge
        refine ⟨by omega, hhor, hact, fun _ hne => absurd hprim hne, ?_, ?_⟩
        · intro hord
          rw [Bool.or_eq_true] at hwin
          rcases hwin with hall | hw
          · exact absurd (of_decide_eq_true hall) (by omega)
          · rw [isWithinWindow_iff, if_neg (by simp; omega)] at hw
            exact hw
        · intro hord
          rw [Bool.or_eq_true] at hwin
          rcases hwin with hall | hw
          · exact absurd (of_decide_eq_true hall) (by omega)
          · rw [isWithinWindow_iff, if_pos (by simp; omega)] at hw
            exact hw
    · rename_i hprim
      unfold primaryResults at ht
      rcases fireLoop_mem (clampedInterval input) (startMOf input) (endMOf input)
        input.now (horizonOf input) (activeDaysOf input) (maxCountOf input)
        hpos hub hs0 hs1 he0 he1 _ _ _ t (by omega) ht with hnil | hkeep
      · exact absurd hnil (List.not_mem_nil t)
      · obtain ⟨h1, h2, h3, h4, h5, h6⟩ := hkeep
        exact ⟨h1, h2, h3, fun hse _ => h4 hse, h5, h6⟩

/-- The returned fire dates are strictly increasing. -/
theorem generateFireDates_chain (input : ScheduleInput) :
    (generateFireDates input).Chain' (· < ·) := by
  have hpos := clampedInterval_pos input
  have hs0 : 0 ≤ startMOf input := normalizeMinutes_nonneg _
  have hs1 : startMOf input < 1440 := normalizeMinutes_lt _
  have he0 : 0 ≤ endMOf input := normalizeMinutes_nonneg _
  have he1 : endMOf input < 1440 := normalizeMinutes_lt _
  unfold generateFireDates
  split
  · exact List.chain'_nil
  · split
    · unfold generateFallbackDates
      dsimp only
      exact fallbackLoop_chain _ _ _ _ _ _ _ _ hpos _ _ _ List.chain'_nil
        (fun r hr => absurd hr (List.not_mem_nil r))
    · unfold primaryResults
      exact fireLoop_chain _ _ _ _ _ _ _ hpos hs0 hs1 he0 he1 _ _ _
        List.chain'_nil (fun r hr => absurd hr (List.not_mem_nil r))

/-- The number of returned fire dates never exceeds the cap. -/
theorem generateFireDates_length (input : ScheduleInput) :
    (generateFireDates input).length ≤ maxCountOf input := by
  unfold generateFireDates
  split
  · simp
  · split
    · unfold generateFallbackDates
      dsimp only
      exact fallbackLoop_length _ _ _ _ _ _ _ _ _ _ _ (by simp)
    · unfold primaryResults
      exact fireLoop_length _ _ _ _ _ _ _ _ _ _ _ _ (by simp)

theorem generateFallbackDates_eq_spec (fi : FallbackInput) :
    generateFallbackDates fi =
      fallbackWalkSpec fi.now fi.intervalMinutes fi.startMinutes fi.endMinutes
        fi.daysOfWeek fi.maxCount (fi.now + fi.horizonHours * 60) := by
  unfold generateFallbackDates fallbackWalkSpec
  dsimp only
  rw [fallbackLoop_eq _ _ _ _ _ _ _ _ _ _ _ (by simp)]
  simp [addMinutes]

/-! ### Claim theorems -/

/-- C1: for every input, the list returned by `generateFireDates` is strictly
increasing in time, and every returned date `t` satisfies
`now < t ≤ now + horizonHours` hours — also on the fallback path. -/
theorem C1_fire_dates_increasing_and_bounded (input : ScheduleInput) :
    (generateFireDates input).Chain' (· < ·) ∧
    ∀ t ∈ generateFireDates input,
      input.now < t ∧ t ≤ input.now + (input.horizonHours.getD 24) * 60 :=
  ⟨generateFireDates_chain input, fun t ht =>
    ⟨(generateFireDates_mem input t ht).1, (generateFireDates_mem input t ht).2.1⟩⟩

/-- Witness for C1 at Scenario A's input and its first instant `09:00`. -/
theorem C1_witness :
    (generateFireDates ⟨480, 30, 540, 1260, none, none, none⟩).Chain' (· < ·) ∧
    (480:Int) < 540 ∧ (540:Int) ≤ 480 + 24 * 60 := by
  have h := C1_fire_dates_increasing_and_bounded ⟨480, 30, 540, 1260, none, none, none⟩
  exact ⟨h.1, (h.2 540 (by decide)).1, (h.2 540 (by decide)).2⟩

/-- C2: when the normalized window is not all-day, every returned date's
minute of day lies in `[startMinutes, endMinutes)`, or in the wrapped-around
union when the window crosses midnight — on both the primary and fallback
paths. -/
theorem C2_window_containment (input : ScheduleInput) (t : Int)
    (hne : startMOf input ≠ endMOf input) (ht : t ∈ generateFireDates input) :
    (startMOf input < endMOf input →
      startMOf input ≤ minutesSinceMidnight t ∧
        minutesSinceMidnight t < endMOf input) ∧
    (endMOf input < startMOf input →
      startMOf input ≤ minutesSinceMidnight t ∨
        minutesSinceMidnight t < endMOf input) :=
  ⟨(generateFireDates_mem input t ht).2.2.2.2.1,
    (generateFireDates_mem input t ht).2.2.2.2.2⟩

/-- Witness for C2 at Scenario A's input and its first instant. -/
theorem C2_witness :
    startMOf ⟨480, 30, 540, 1260, none, none, none⟩ ≤ minutesSinceMidnight 540 ∧
    minutesSinceMidnight 540 < endMOf ⟨480, 30, 540, 1260, none, none, none⟩ :=
  (C2_window_containment ⟨480, 30, 540, 1260, none, none, none⟩ 540
    (by decide) (by decide)).1 (by decide)

/-- C3: every returned date falls on an active day of the normalized
Monday-first mask, indexed by `6` when the native weekday is `0` (Sunday)
and by `weekday - 1` otherwise, evaluated at the returned date's own day. -/
theorem C3_day_mask_respected (input : ScheduleInput) (t : Int)
    (ht : t ∈ generateFireDates input) :
    (activeDaysOf input).getD
      (if getDay t = 0 then 6 else getDay t - 1).toNat false = true := by
  have h := (generateFireDates_mem input t ht).2.2.1
  unfold isDayActive at h
  exact h

/-- Witness for C3: the Friday instant `1445` of the C7 fallback scenario
is checked against a mask with Thursday off and Friday on. -/
theorem C3_witness :
    (activeDaysOf ⟨1345, 100, 1380, 10,
        some [true, true, true, false, true, true, true], none, some 2⟩).getD
      (if getDay 1445 = 0 then 6 else getDay 1445 - 1).toNat false = true :=
  C3_day_mask_respected _ 1445 (by decide)

/-- C4: the expansion respects `maxCount`, on the fallback path too, and the
merged queue respects its own `maxCount`. -/
theorem C4_caps_respected :
    (∀ input : ScheduleInput,
      (generateFireDates input).length ≤ input.maxCount.getD 50) ∧
    (∀ input : QueueInput,
      (buildNotificationQueue input).length ≤ input.maxCount.getD 50) := by
  refine ⟨fun input => generateFireDates_length input, fun input => ?_⟩
  unfold buildNotificationQueue
  simp [List.length_take]

/-- C5 counterexample: an input whose `daysOfWeek` is the empty array fires
(the empty array is normalized to the all-true default), refuting "an empty
mask means the schedule never fires". -/
theorem C5_counterexample :
    (⟨0, 60, 0, 0, some [], some 2, some 2⟩ : ScheduleInput).daysOfWeek =
        some [] ∧
    generateFireDates ⟨0, 60, 0, 0, some [], some 2, some 2⟩ = [60, 120] ∧
    generateFireDates ⟨0, 60, 0, 0, some [], some 2, some 2⟩ ≠ [] :=
  ⟨rfl, by decide, by decide⟩

/-- C5 (amended): a 7-element all-false mask makes `generateFireDates`
return the empty list; a zero-length mask is instead replaced by the
all-true default and behaves like "every day active". -/
theorem C5_all_false_mask_never_fires (input : ScheduleInput) (days : List Bool)
    (hdays : input.daysOfWeek = some days) (hlen : days.length = 7)
    (hfalse : ∀ b ∈ days, b = false) :
    generateFireDates input = [] := by
  have hmask : activeDaysOf input = days := by
    unfold activeDaysOf normalizeDaysOfWeek
    rw [hdays]
    simp [hlen]
  have hany : (activeDaysOf input).any id = false := by
    rw [hmask, List.any_eq_false]
    intro b hb
    simp [hfalse b hb]
  unfold generateFireDates
  rw [if_pos hany]

/-- Witness for the amended C5 at a concrete all-false 7-element mask. -/
theorem C5_witness :
    generateFireDates ⟨0, 60, 0, 0,
      some [false, false, false, false, false, false, false], none, none⟩ = [] :=
  C5_all_false_mask_never_fires _ _ rfl rfl (by decide)

/-- C6 counterexample: with `now = 23:59`, interval `100` and an all-day
window, the first returned instant is `01:00` of the next day, whose
minute-of-day `60` is not a multiple of the clamped interval `100` (the
aligned tick from `now`'s midnight spilled past the following midnight). -/
theorem C6_counterexample :
    startMOf ⟨1439, 100, 0, 0, none, none, some 2⟩ =
      endMOf ⟨1439, 100, 0, 0, none, none, some 2⟩ ∧
    clampedInterval ⟨1439, 100, 0, 0, none, none, some 2⟩ = 100 ∧
    generateFireDates ⟨1439, 100, 0, 0, none, none, some 2⟩ = [1500] ∧
    ¬ (100 ∣ minutesSinceMidnight 1500) :=
  ⟨rfl, rfl, by decide, by decide⟩

/-- C6 (amended): for an all-day input, every returned date is strictly
after `now`; when the result comes from the primary walk, each date is an
interval tick aligned to its own or the previous day's midnight (the
interval divides the minute-of-day or the minute-of-day plus 1440), hence a
genuine multiple of the clamped interval whenever that interval divides
1440 (such as 60); and in Scenario B (window `09:00 == 09:00`, interval 60,
`now = 09:30`) the first returned instant is `10:00`. -/
theorem C6_all_day_alignment :
    (∀ (input : ScheduleInput) (t : Int), startMOf input = endMOf input →
      t ∈ generateFireDates input →
      input.now < t ∧
      (primaryResults input ≠ [] →
        (clampedInterval input ∣ minutesSinceMidnight t ∨
          clampedInterval input ∣ (minutesSinceMidnight t + 1440)) ∧
        (clampedInterval input ∣ (1440:Int) →
          clampedInterval input ∣ minutesSinceMidnight t))) ∧
    (generateFireDates ⟨570, 60, 540, 540, none, none, none⟩).head? = some 600 := by
  constructor
  · intro input t hall ht
    have h := generateFireDates_mem input t ht
    refine ⟨h.1, fun hp => ?_⟩
    have hd := h.2.2.2.1 hall hp
    refine ⟨hd, fun h1440 => ?_⟩
    rcases hd with hdd | hdd
    · exact hdd
    · have hsub := Int.dvd_sub hdd h1440
      have hcalc : t % 1440 + 1440 - 1440 = t % 1440 := by ring
      rw [hcalc] at hsub
      exact hsub
  · decide

/-- Witness for the amended C6 at Scenario B's input and first instant. -/
theorem C6_witness :
    (570:Int) < 600 ∧
    (clampedInterval ⟨570, 60, 540, 540, none, none, none⟩ ∣
        minutesSinceMidnight 600 ∨
      clampedInterval ⟨570, 60, 540, 540, none, none, none⟩ ∣
        (minutesSinceMidnight 600 + 1440)) ∧
    clampedInterval ⟨570, 60, 540, 540, none, none, none⟩ ∣
      minutesSinceMidnight 600 := by
  have h := C6_all_day_alignment.1 ⟨570, 60, 540, 540, none, none, none⟩ 600
    (by decide) (by decide)
  have h2 := h.2 (by decide)
  exact ⟨h.1, h2.1, h2.2 (by decide)⟩

/-- C7: whenever the primary window-walk collects zero instants, the result
of `generateFireDates` is exactly the fallback walk: from
`now + intervalMinutes` stepping by `intervalMinutes`, keeping exactly the
ticks inside the window (any tick when all-day) on an active day, up to the
horizon and up to `maxCount`. -/
theorem C7_fallback_policy (input : ScheduleInput)
    (hp : primaryResults input = []) :
    generateFireDates input =
      fallbackWalkSpec input.now (clampedInterval input) (startMOf input)
        (endMOf input) (activeDaysOf input) (maxCountOf input)
        (horizonOf input) := by
  unfold generateFireDates
  split
  · rename_i hmask
    unfold fallbackWalkSpec
    have hfilter : ∀ l : List Int, (l.filter fun t =>
        (decide (startMOf input = endMOf input) ||
          isWithinWindow t (startMOf input) (endMOf input)
            (decide (endMOf input < startMOf input)))
          && isDayActive t (activeDaysOf input)) = [] := by
      intro l
      rw [List.filter_eq_nil_iff]
      intro a _
      rw [isDayActive_false_of_any_false hmask a]
      simp
    rw [hfilter]
    simp
  · rw [generateFallbackDates_eq_spec]
    rfl

/-- Witness for C7: a midnight-crossing window whose primary walk is empty
(its only in-horizon candidate falls on the inactive Thursday) while the
fallback keeps the tick `1445` of the active Friday. -/
theorem C7_witness :
    primaryResults ⟨1345, 100, 1380, 10,
        some [true, true, true, false, true, true, true], none, some 2⟩ = [] ∧
    generateFireDates ⟨1345, 100, 1380, 10,
        some [true, true, true, false, true, true, true], none, some 2⟩ =
      fallbackWalkSpec 1345
        (clampedInterval ⟨1345, 100, 1380, 10,
          some [true, true, true, false, true, true, true], none, some 2⟩)
        (startMOf ⟨1345, 100, 1380, 10,
          some [true, true, true, false, true, true, true], none, some 2⟩)
        (endMOf ⟨1345, 100, 1380, 10,
          some [true, true, true, false, true, true, true], none, some 2⟩)
        (activeDaysOf ⟨1345, 100, 1380, 10,
          some [true, true, true, false, true, true, true], none, some 2⟩)
        (maxCountOf ⟨1345, 100, 1380, 10,
          some [true, true, true, false, true, true, true], none, some 2⟩)
        (horizonOf ⟨1345, 100, 1380, 10,
          some [true, true, true, false, true, true, true], none, some 2⟩) :=
  ⟨by decide, C7_fallback_policy _ (by decide)⟩

theorem notifLE_trans : ∀ a b c : ScheduledNotification,
    notifLE a b = true → notifLE b c = true → notifLE a c = true := by
  intro a b c
  unfold notifLE
  simp only [decide_eq_true_eq]
  omega

theorem notifLE_total : ∀ a b : ScheduledNotification,
    (notifLE a b || notifLE b a) = true := by
  intro a b
  unfold notifLE
  simp only [Bool.or_eq_true, decide_eq_true_eq]
  omega

/-- C8: the queue is the per-schedule expansions, tagged with id and
message and concatenated in input order, sorted stably by fire time
(elements of equal fire time keep their input order: the sorted list filtered
at any fire time equals the concatenation filtered there), truncated to the
first `maxCount` entries — which are the earliest ones (every dropped entry
fires no earlier than every kept one).  Scenario D: one all-day 5-minute
schedule with `maxCount = 5` yields exactly the earliest five instants. -/
theorem C8_queue_build :
    (∀ input : QueueInput,
      buildNotificationQueue input =
        ((combinedQueue input).mergeSort notifLE).take (input.maxCount.getD 50) ∧
      ((combinedQueue input).mergeSort notifLE).Perm (combinedQueue input) ∧
      (buildNotificationQueue input).Pairwise (fun a b => a.date ≤ b.date) ∧
      (∀ d : Int, ((combinedQueue input).mergeSort notifLE).filter
          (fun x => x.date == d) =
        (combinedQueue input).filter (fun x => x.date == d)) ∧
      (∀ x ∈ ((combinedQueue input).mergeSort notifLE).drop
          (input.maxCount.getD 50),
        ∀ y ∈ buildNotificationQueue input, y.date ≤ x.date)) ∧
    buildNotificationQueue ⟨0, [⟨"s1", 5, 0, 0, "m", none⟩], some 5, none⟩ =
      [⟨"s1", 5, "m"⟩, ⟨"s1", 10, "m"⟩, ⟨"s1", 15, "m"⟩,
        ⟨"s1", 20, "m"⟩, ⟨"s1", 25, "m"⟩] := by
  constructor
  · intro input
    have hsorted := List.sorted_mergeSort notifLE_trans notifLE_total
      (combinedQueue input)
    have hperm := List.mergeSort_perm (combinedQueue input) notifLE
    refine ⟨rfl, hperm, ?_, ?_, ?_⟩
    · have hp : (buildNotificationQueue input).Pairwise
          (fun a b => notifLE a b = true) :=
        hsorted.sublist (List.take_sublist _ _)
      refine hp.imp ?_
      intro a b hab
      unfold notifLE at hab
      simpa using hab
    · intro d
      have hall : ∀ a ∈ (combinedQueue input).filter (fun x => x.date == d),
          a.date = d := by
        intro a ha
        have := (List.mem_filter.mp ha).2
        simpa using this
      have hpw : ((combinedQueue input).filter (fun x => x.date == d)).Pairwise
          (fun a b => notifLE a b = true) := by
        refine List.pairwise_of_forall_mem_list ?_
        intro a ha b hb
        unfold notifLE
        rw [hall a ha, hall b hb]
        simp
      have hsl := List.sublist_mergeSort notifLE_trans notifLE_total hpw
        (List.filter_sublist (combinedQueue input))
      have hsl2 : ((combinedQueue input).filter (fun x => x.date == d)).Sublist
          (((combinedQueue input).mergeSort notifLE).filter
            (fun x => x.date == d)) := by
        have := List.Sublist.filter (fun x => x.date == d) hsl
        rwa [List.filter_eq_self.mpr (fun a ha => by simp [hall a ha])] at this
      have hlen : (((combinedQueue input).mergeSort notifLE).filter
          (fun x => x.date == d)).length =
          ((combinedQueue input).filter (fun x => x.date == d)).length :=
        (hperm.filter _).length_eq
      exact (hsl2.eq_of_length hlen.symm).symm
    · intro x hx y hy
      have hfull := hsorted
      rw [← List.take_append_drop (input.maxCount.getD 50)
        ((combinedQueue input).mergeSort notifLE)] at hfull
      have hcross := (List.pairwise_append.mp hfull).2.2 y hy x hx
      unfold notifLE at hcross
      simpa using hcross
  · have hcomb : combinedQueue ⟨0, [⟨"s1", 5, 0, 0, "m", none⟩], some 5, none⟩ =
        [⟨"s1", 5, "m"⟩, ⟨"s1", 10, "m"⟩, ⟨"s1", 15, "m"⟩,
          ⟨"s1", 20, "m"⟩, ⟨"s1", 25, "m"⟩] := by decide
    show ((combinedQueue ⟨0, [⟨"s1", 5, 0, 0, "m", none⟩], some 5, none⟩).mergeSort
        notifLE).take 5 = _
    rw [List.mergeSort_of_sorted (by rw [hcomb]; decide), hcomb]
    decide

/-- C9: the quiet-hours filter is the identity when quiet hours are absent,
disabled, or zero-width; otherwise it keeps exactly the instants whose
minute-of-day is outside the quiet window (non-crossing window: excluded iff
`start ≤ m < end`; midnight-crossing window: excluded iff
`m ≥ start ∨ m < end`).  For the `[22:00, 23:00)` window, `22:30` is removed
and `21:59` is kept. -/
theorem C9_quiet_hours_filter :
    (∀ queue : List ScheduledNotification, filterQuietHours queue none = queue) ∧
    (∀ (queue : List ScheduledNotification) (qh : QuietHours),
      qh.enabled = false → filterQuietHours queue (some qh) = queue) ∧
    (∀ (queue : List ScheduledNotification) (qh : QuietHours),
      qh.startMinutesFromMidnight = qh.endMinutesFromMidnight →
      filterQuietHours queue (some qh) = queue) ∧
    (∀ (queue : List ScheduledNotification) (qh : QuietHours),
      qh.enabled = true →
      qh.startMinutesFromMidnight ≠ qh.endMinutesFromMidnight →
      filterQuietHours queue (some qh) = queue.filter fun item =>
        decide (¬ (if qh.endMinutesFromMidnight < qh.startMinutesFromMidnight
          then qh.startMinutesFromMidnight ≤ minutesSinceMidnight item.date ∨
            minutesSinceMidnight item.date < qh.endMinutesFromMidnight
          else qh.startMinutesFromMidnight ≤ minutesSinceMidnight item.date ∧
            minutesSinceMidnight item.date < qh.endMinutesFromMidnight))) ∧
    filterQuietHours [⟨"a", 1350, "x"⟩, ⟨"a", 1319, "x"⟩]
        (some ⟨true, 1320, 1380⟩) = [⟨"a", 1319, "x"⟩] := by
  refine ⟨fun queue => rfl, ?_, ?_, ?_, by decide⟩
  · intro queue qh hdis
    unfold filterQuietHours
    dsimp only
    rw [if_pos hdis]
  · intro queue qh hzero
    unfold filterQuietHours
    dsimp only
    by_cases hen : qh.enabled = false
    · rw [if_pos hen]
    · rw [if_neg hen, if_pos hzero]
  · intro queue qh hen hne
    unfold filterQuietHours
    dsimp only
    rw [if_neg (by simp [hen]), if_neg hne]
    refine List.filter_congr ?_
    intro item _
    by_cases hcr : qh.endMinutesFromMidnight < qh.startMinutesFromMidnight
    · rw [if_pos hcr, ← Bool.decide_and, decide_eq_decide, if_pos hcr]
      omega
    · rw [if_neg hcr, ← Bool.decide_or, decide_eq_decide, if_neg hcr]
      omega

/-- Witness for C9: identity on a disabled and on a zero-width window, and
the explicit keep-predicate form for the `[22:00, 23:00)` window. -/
theorem C9_witness :
    filterQuietHours [⟨"a", 1350, "x"⟩] (some ⟨false, 1320, 1380⟩) =
      [⟨"a", 1350, "x"⟩] ∧
    filterQuietHours [⟨"a", 1350, "x"⟩] (some ⟨true, 100, 100⟩) =
      [⟨"a", 1350, "x"⟩] ∧
    filterQuietHours [⟨"a", 1350, "x"⟩, ⟨"a", 1319, "x"⟩]
        (some ⟨true, 1320, 1380⟩) =
      ([⟨"a", 1350, "x"⟩, ⟨"a", 1319, "x"⟩] :
          List ScheduledNotification).filter fun item =>
        decide (¬ ((1320:Int) ≤ minutesSinceMidnight item.date ∧
          minutesSinceMidnight item.date < 1380)) :=
  ⟨C9_quiet_hours_filter.2.1 _ _ rfl,
    C9_quiet_hours_filter.2.2.1 _ _ rfl,
    C9_quiet_hours_filter.2.2.2.1 _ ⟨true, 1320, 1380⟩ rfl (by decide)⟩

/-! ### Dispatch adapter facts -/

theorem filterQuietHours_subset (queue : List ScheduledNotification)
    (quietHours : Option QuietHours) :
    ∀ x ∈ filterQuietHours queue quietHours, x ∈ queue := by
  intro x hx
  cases quietHours with
  | none => exact hx
  | some qh =>
    unfold filterQuietHours at hx
    dsimp only at hx
    split at hx
    · exact hx
    · split at hx
      · exact hx
      · exact (List.mem_filter.mp hx).1

/-- Every instant of the (quiet-hours-filtered) queue is tagged with the id
of one of the batch's schedules. -/
theorem mem_queue_scheduleId (targetSchedules : List Schedule)
    (options : QueueOptions) (x : ScheduledNotification)
    (hx : x ∈ filterQuietHours (buildQueue targetSchedules options)
      options.quietHours) :
    x.scheduleId ∈ targetSchedules.map (fun s => s.id) := by
  have hx2 : x ∈ buildQueue targetSchedules options :=
    filterQuietHours_subset _ _ x hx
  unfold buildQueue buildNotificationQueue at hx2
  have hx3 := List.mem_of_mem_take hx2
  have hx4 := (List.mergeSort_perm _ notifLE).mem_iff.mp hx3
  unfold combinedQueue at hx4
  rw [List.mem_flatMap] at hx4
  obtain ⟨rule, hrule, hx5⟩ := hx4
  rw [List.mem_map] at hx5
  obtain ⟨date, _, hx6⟩ := hx5
  rw [List.mem_map] at hrule
  obtain ⟨s, hs, hsrule⟩ := hrule
  rw [List.mem_map]
  refine ⟨s, hs, ?_⟩
  subst hx6
  subst hsrule
  rfl

/-- Folding best-effort cancellation over the batch's schedule ids removes
exactly the registrations tagged with one of those ids. -/
theorem foldl_cancel_eq (ids : List String) :
    ∀ st : NotifierState,
      ids.foldl (fun s sid => (cancelScheduleNotifications s sid).2) st =
        ⟨st.pending.filter (fun p => !(ids.contains p.scheduleId)), st.nextId⟩ := by
  induction ids with
  | nil =>
    intro st
    simp only [List.foldl_nil]
    have : st.pending.filter (fun p => !(([] : List String).contains p.scheduleId)) =
        st.pending := by
      rw [List.filter_eq_self]
      intro a _
      rfl
    rw [this]
  | cons sid rest ih =>
    intro st
    rw [List.foldl_cons, ih]
    unfold cancelScheduleNotifications
    dsimp only
    congr 1
    rw [List.filter_filter]
    refine List.filter_congr ?_
    intro p _
    rw [List.contains_cons, Bool.not_or, Bool.and_comm]

/-- The registration loop under a first failure at position `k`: the batch
reports zero with the formatted error, every registration tagged with a
batch schedule id is cancelled (the `k` fresh identifiers were consumed),
and exactly the first `k + 1` registration calls were issued. -/
theorem scheduleBatchLoop_fail (registerResult : Nat → Option String)
    (batchIds : List String) :
    ∀ (k : Nat) (queue : List ScheduledNotification) (scheduled : Nat)
      (state : NotifierState) (attempts : List ScheduledNotification)
      (msg : String),
      k < queue.length →
      (∀ j, j < k → registerResult (attempts.length + j) = none) →
      registerResult (attempts.length + k) = some msg →
      (∀ item ∈ queue, item.scheduleId ∈ batchIds) →
      scheduleBatchLoop registerResult batchIds queue scheduled state attempts =
        (⟨0, some (formatError msg)⟩,
          ⟨state.pending.filter (fun p => !(batchIds.contains p.scheduleId)),
            state.nextId + k⟩,
          attempts ++ queue.take (k + 1)) := by
  intro k
  induction k with
  | zero =>
    intro queue scheduled state attempts msg hk hok hfail hsub
    cases queue with
    | nil => simp at hk
    | cons item rest =>
      simp only [scheduleBatchLoop]
      rw [show registerResult attempts.length = some msg by simpa using hfail]
      dsimp only
      rw [foldl_cancel_eq]
      simp [List.take_succ_cons]
  | succ n ih =>
    intro queue scheduled state attempts msg hk hok hfail hsub
    cases queue with
    | nil => simp at hk
    | cons item rest =>
      simp only [scheduleBatchLoop]
      rw [show registerResult attempts.length = none by
        simpa using hok 0 (Nat.succ_pos n)]
      dsimp only
      have hok2 : ∀ j, j < n →
          registerResult ((attempts ++ [item]).length + j) = none := by
        intro j hj
        have harith : (attempts ++ [item]).length + j =
            attempts.length + (j + 1) := by
          simp
          omega
        rw [harith]
        exact hok (j + 1) (by omega)
      have hfail2 : registerResult ((attempts ++ [item]).length + n) =
          some msg := by
        have harith : (attempts ++ [item]).length + n =
            attempts.length + (n + 1) := by
          simp
          omega
        rw [harith]
        exact hfail
      rw [ih rest (scheduled + 1)
        ⟨state.pending ++ [(⟨state.nextId, item.scheduleId⟩ :
          PendingNotification)], state.nextId + 1⟩
        (attempts ++ [item]) msg (by simpa using hk) hok2 hfail2
        (fun it hit => hsub it (List.mem_cons_of_mem _ hit))]
      have hitem : batchIds.contains item.scheduleId = true :=
        List.elem_iff.mpr (hsub item (List.mem_cons_self _ _))
      have hpend : (state.pending ++
          [(⟨state.nextId, item.scheduleId⟩ : PendingNotification)]).filter
          (fun p => !(batchIds.contains p.scheduleId)) =
          state.pending.filter (fun p => !(batchIds.contains p.scheduleId)) := by
        rw [List.filter_append]
        have hsingle : ([(⟨state.nextId, item.scheduleId⟩ :
            PendingNotification)]).filter
            (fun p => !(batchIds.contains p.scheduleId)) = [] := by
          have hmem : item.scheduleId ∈ batchIds := List.elem_iff.mp hitem
          simp [hitem, hmem]
        rw [hsingle, List.append_nil]
      rw [hpend]
      simp [List.take_succ_cons, Nat.add_assoc]
      omega

/-- C10: if a registration call fails partway through `scheduleBatch`, the
whole batch fails: the calls stop at the failing instant (exactly the first
`k + 1` queue entries are attempted), every pending registration tagged with
any batch schedule's id is cancelled (cleanup failures are swallowed in the
source; cancellation itself is infallible in the model), and the result is
`count = 0` with the formatted underlying error message. -/
theorem C10_batch_failure_rollback (registerResult : Nat → Option String)
    (targetSchedules : List Schedule) (options : QueueOptions)
    (state : NotifierState) (k : Nat) (msg : String)
    (hk : k < (filterQuietHours (buildQueue targetSchedules options)
      options.quietHours).length)
    (hok : ∀ j, j < k → registerResult j = none)
    (hfail : registerResult k = some msg) :
    scheduleBatch registerResult targetSchedules options state =
      (⟨0, some (formatError msg)⟩,
        ⟨state.pending.filter (fun p =>
          !((targetSchedules.map (fun s => s.id)).contains p.scheduleId)),
          state.nextId + k⟩,
        (filterQuietHours (buildQueue targetSchedules options)
          options.quietHours).take (k + 1)) := by
  unfold scheduleBatch
  dsimp only
  have hq : filterQuietHours (buildQueue targetSchedules options)
      options.quietHours ≠ [] := by
    intro h
    rw [h] at hk
    simp at hk
  rw [if_neg hq]
  rw [scheduleBatchLoop_fail registerResult _ k _ 0 state [] msg hk
    (by intro j hj; simpa using hok j hj)
    (by simpa using hfail)
    (fun item hit => mem_queue_scheduleId targetSchedules options item hit)]
  simp

/-- Witness for C8: two schedules firing at the same instant with
`maxCount = 1`; the dropped second entry fires no earlier than the kept
first one. -/
theorem C8_witness :
    (⟨"s1", 60, "m1"⟩ : ScheduledNotification).date ≤
      (⟨"s2", 60, "m2"⟩ : ScheduledNotification).date := by
  have h := C8_queue_build.1
    ⟨0, [⟨"s1", 60, 0, 0, "m1", none⟩, ⟨"s2", 60, 0, 0, "m2", none⟩],
      some 1, some 1⟩
  have hms : (combinedQueue ⟨0, [⟨"s1", 60, 0, 0, "m1", none⟩,
      ⟨"s2", 60, 0, 0, "m2", none⟩], some 1, some 1⟩).mergeSort notifLE =
      combinedQueue ⟨0, [⟨"s1", 60, 0, 0, "m1", none⟩,
        ⟨"s2", 60, 0, 0, "m2", none⟩], some 1, some 1⟩ :=
    List.mergeSort_of_sorted (by decide)
  refine h.2.2.2.2 ⟨"s2", 60, "m2"⟩ ?_ ⟨"s1", 60, "m1"⟩ ?_
  · rw [hms]
    decide
  · rw [h.1, hms]
    decide

/-- Witness for C10 at Scenario E: three schedules, the second registration
call fails; the first two calls were issued, the batch reports zero with the
error, the pre-existing s1 registration and the fresh registration are both
rolled back. -/
theorem C10_witness :
    scheduleBatch batchOracle batchSchedules batchOptions batchState =
      (⟨0, some (formatError "boom")⟩,
        ⟨batchState.pending.filter (fun p =>
          !((batchSchedules.map (fun s => s.id)).contains p.scheduleId)),
          batchState.nextId + 1⟩,
        (filterQuietHours (buildQueue batchSchedules batchOptions)
          batchOptions.quietHours).take (1 + 1)) := by
  have hlen : (filterQuietHours (buildQueue batchSchedules batchOptions)
      batchOptions.quietHours).length = 3 := by
    show (buildQueue batchSchedules batchOptions).length = 3
    unfold buildQueue buildNotificationQueue
    rw [List.length_take, (List.mergeSort_perm _ _).length_eq]
    decide
  refine C10_batch_failure_rollback batchOracle batchSchedules batchOptions
    batchState 1 "boom" (by rw [hlen]; decide) ?_ rfl
  intro j hj
  have hj0 : j = 0 := by omega
  subst hj0
  rfl

end Scheduler
